import Mathlib

/-!
# External-IP label updater: a shallow embedding

The repository holds two entry points that mirror the public address of a
Yandex.Cloud compute instance onto the Kubernetes node of the same name:

* `cmd/external-ip-label-updater/main.go` (namespace `Updater`), and
* `main.go` (namespace `Legacy`).

Both are embedded below as pure functions.  The outbound calls (directory
listing, node read, node patch) are recorded in a trace of `Event`s, and the
answers of the two remote services are parameters (`SDK`, `Clientset`).
-/

set_option autoImplicit false

/-! ## Data model shared by both entry points -/

/-- Outcome of a handler: Go `nil`, a returned `error`, or a run-time panic. -/
inductive Result where
  | ok : Result
  | err (msg : String) : Result
  | panic (msg : String) : Result
  deriving DecidableEq, Repr

/-- The Go struct `patch` (`patchStringValue` in the second entry point has the
same three fields).  `Value` is an `interface{}`: `none` is the nil interface. -/
structure patch where
  Op : String
  Path : String
  Value : Option String
  deriving DecidableEq, Repr

/-- Same fields as `patch`; the name used by `main.go`. -/
abbrev patchStringValue := patch

/-- Outbound calls, in the order they are made. -/
inductive Event where
  | listInstances (folderId : String) (pageSize : Nat) : Event
  | getNode (name : String) : Event
  | patchNode (name : String) (body : List patch) : Event
  deriving DecidableEq, Repr

/-- The Kubernetes `v1.NodeCondition` fields the programs read.  `Typ` and
`Status` are Go string types; `LastTransitionTime` is an instant in
nanoseconds since the Unix epoch. -/
structure NodeCondition where
  Typ : String
  Status : String
  LastTransitionTime : Int
  deriving DecidableEq, Repr

/-- The Kubernetes `v1.Node` fields the programs read.  `Labels` is the Go map
`map[string]string`: `none` is an absent key. -/
structure Node where
  Name : String
  Labels : String → Option String
  Conditions : List NodeCondition

/-- Protobuf message `compute.OneToOneNat`. -/
structure OneToOneNat where
  Address : String
  deriving DecidableEq, Repr

/-- Protobuf message `compute.PrimaryAddress`; the NAT pointer may be nil. -/
structure PrimaryAddress where
  Address : String
  OneToOneNat : Option OneToOneNat
  deriving DecidableEq, Repr

/-- Protobuf message `compute.NetworkInterface`; the address pointer may be nil. -/
structure NetworkInterface where
  PrimaryV4Address : Option PrimaryAddress
  deriving DecidableEq, Repr

/-- Protobuf message `compute.Instance`. -/
structure Instance where
  Name : String
  NetworkInterfaces : List NetworkInterface
  deriving DecidableEq, Repr

/-- The cloud SDK handle: what `Compute().Instance().List` answers for a
folder id (an error text or the instance list). -/
structure SDK where
  ListInstances : String → Except String (List Instance)

/-- The Kubernetes client handle.  `Get` answers a node read; `Patch` answers a
node patch (`none` is success) and may depend on the calls made so far. -/
structure Clientset where
  Get : String → Except String Node
  Patch : List Event → String → List patch → Option String

/-- Constant `v1.NodeReady`. -/
def NodeReady : String := "Ready"

/-- Constant `v1.ConditionTrue`. -/
def ConditionTrue : String := "True"

/-! ## Library functions used by the source -/

/-- Smallest `time.Duration` (an int64 count of nanoseconds). -/
def minDuration : Int := -(2 ^ 63)

/-- Largest `time.Duration`. -/
def maxDuration : Int := 2 ^ 63 - 1

/-- Go `t.Sub(u)`: the difference as a `Duration`, saturating at the smallest
and largest representable duration. -/
def timeSub (t u : Int) : Int :=
  let d := t - u
  if d < minDuration then minDuration
  else if maxDuration < d then maxDuration
  else d

/-- Go `time.Since(t)`, which is `time.Now().Sub(t)`; the clock reading is the
first argument. -/
def Since (now t : Int) : Int := timeSub now t

/-- Go `t.Unix()`: whole seconds since the epoch, rounded down. -/
def Unix (t : Int) : Int := t / 1000000000

/-- Scanner behind `ReplaceAll` for a non-empty `old`: the counter is the
number of characters of the current match still to be dropped. -/
def replaceAllAux (old new : List Char) : Nat → List Char → List Char
  | _, [] => []
  | skip + 1, _ :: cs => replaceAllAux old new skip cs
  | 0, c :: cs =>
    if old.isPrefixOf (c :: cs) then new ++ replaceAllAux old new (old.length - 1) cs
    else c :: replaceAllAux old new 0 cs

/-- Go `strings.ReplaceAll(s, old, new)`: every non-overlapping occurrence of
`old`, leftmost first, becomes `new`; an empty `old` matches before every
character and at the end. -/
def ReplaceAll (s old new : String) : String :=
  if old.data = [] then
    String.mk (new.data ++ s.data.flatMap (fun c => c :: new.data))
  else
    String.mk (replaceAllAux old.data new.data 0 s.data)

/-- Nil-safe getter chain `item.GetPrimaryV4Address().GetOneToOneNat()`. -/
def GetOneToOneNat (item : NetworkInterface) : Option OneToOneNat :=
  match item.PrimaryV4Address with
  | none => none
  | some pa => pa.OneToOneNat

namespace Updater

/-! ## `cmd/external-ip-label-updater/main.go` -/

/-- Source `getYandexCloudComputeInstances`: one directory query. -/
def getYandexCloudComputeInstances (sdk : SDK) (folderId : String) (tr : List Event) :
    List Event × Except String (List Instance) :=
  let tr1 := tr ++ [Event.listInstances folderId 100]
  match sdk.ListInstances folderId with
  | .error e => (tr1, .error ("failed to list compule instances: " ++ e))
  | .ok instances => (tr1, .ok instances)

/-- Source `getNodeReadyCondition`: the first condition of type `Ready`. -/
def getNodeReadyCondition (node : Node) : Option NodeCondition :=
  let rec go : List NodeCondition → Option NodeCondition
    | [] => none
    | condition :: rest => if condition.Typ = NodeReady then some condition else go rest
  go node.Conditions

/-- Source `addNodeLabelWithExternalIP`: returns the extended trace and the
error, if any. -/
def addNodeLabelWithExternalIP (cli : Clientset) (node : Node) (label address : String)
    (tr : List Event) : List Event × Option String :=
  let label1 := ReplaceAll label "/" "~1"
  let label2 := "/metadata/labels/" ++ label1
  let b : List patch := [{ Op := "replace", Path := label2, Value := some address }]
  let tr1 := tr ++ [Event.patchNode node.Name b]
  match cli.Patch tr node.Name b with
  | some e => (tr1, some ("failed to patch instance " ++ node.Name ++ ": " ++ e))
  | none => (tr1, none)

/-- Source `removeNodeLabel`. -/
def removeNodeLabel (cli : Clientset) (node : Node) (label : String)
    (tr : List Event) : List Event × Option String :=
  let label1 := ReplaceAll label "/" "~1"
  let label2 := "/metadata/labels/" ++ label1
  let b : List patch := [{ Op := "remove", Path := label2, Value := none }]
  let tr1 := tr ++ [Event.patchNode node.Name b]
  match cli.Patch tr node.Name b with
  | some e => (tr1, some ("error in patch request: " ++ e))
  | none => (tr1, none)

/-- The inner loop of `updateNodesLabel` over the interfaces of one instance.
`some r` means the handler returned `r` from inside the loop, `none` that the
loop ran to its end. -/
def interfacesLoop (cli : Clientset) (node : Node) (label : String) :
    List NetworkInterface → List Event → List Event × Option Result
  | [], tr => (tr, none)
  | item :: rest, tr =>
    match GetOneToOneNat item with
    | none => interfacesLoop cli node label rest tr
    | some nat =>
      let ip := nat.Address
      if node.Labels label = some ip then (tr, some Result.ok)
      else
        match addNodeLabelWithExternalIP cli node label ip tr with
        | (tr1, some e) => (tr1, some (Result.err ("failed to add label to node: " ++ e)))
        | (tr1, none) => interfacesLoop cli node label rest tr1

/-- The outer loop of `updateNodesLabel` over the directory listing. -/
def instancesLoop (cli : Clientset) (node : Node) (label : String) :
    List Instance → List Event → List Event × Option Result
  | [], tr => (tr, none)
  | inst :: rest, tr =>
    if inst.Name ≠ node.Name then instancesLoop cli node label rest tr
    else
      match interfacesLoop cli node label inst.NetworkInterfaces tr with
      | (tr1, some r) => (tr1, some r)
      | (tr1, none) => instancesLoop cli node label rest tr1

/-- Source `updateNodesLabel`, with the clock reading as first argument.
Returns the outbound calls made and the handler's result. -/
def updateNodesLabel (now : Int) (node : Node) (cli : Clientset) (sdk : SDK)
    (delay : Int) (folderId label : String) : List Event × Result :=
  match getNodeReadyCondition node with
  | none => ([], Result.err ("failed to get node " ++ node.Name ++ " ready condition info"))
  | some ready =>
    if ready.Status = ConditionTrue then
      if delay < Since now ready.LastTransitionTime then ([], Result.ok)
      else
        match getYandexCloudComputeInstances sdk folderId [] with
        | (tr, .error e) =>
          (tr, Result.err ("failed to get yandex cloud instances list: " ++ e))
        | (tr, .ok instances) =>
          match instancesLoop cli node label instances tr with
          | (tr1, some r) => (tr1, r)
          | (tr1, none) => (tr1, Result.ok)
    else
      if node.Labels label = none then ([], Result.ok)
      else
        match removeNodeLabel cli node label [] with
        | (tr, some e) => (tr, Result.err ("failed to remove label from node: " ++ e))
        | (tr, none) => (tr, Result.ok)

end Updater

namespace Legacy

/-! ## `main.go` -/

/-- Constant `duration`. -/
def duration : String := "5m"

/-- Package variable `timeout`, set by `init` to `time.ParseDuration(duration)`:
five minutes, in nanoseconds. -/
def timeout : Int := 5 * 60 * 1000000000

/-- Go `int64(d.Seconds())` for a non-negative duration: whole seconds. -/
def int64Seconds (d : Int) : Int := d / 1000000000

/-- Text of the Go run-time panic raised by a field access through a nil pointer. -/
def nilDereference : String := "runtime error: invalid memory address or nil pointer dereference"

/-- Source `getComputeInstances`: one directory query. -/
def getComputeInstances (sdk : SDK) (folderID : String) (tr : List Event) :
    List Event × Except String (List Instance) :=
  let tr1 := tr ++ [Event.listInstances folderID 50]
  match sdk.ListInstances folderID with
  | .error e => (tr1, .error e)
  | .ok instances => (tr1, .ok instances)

/-- The expression `ni.PrimaryV4Address.OneToOneNat.Address` of `addLabel`, read
by plain field accesses: `none` stands for the panic raised when one of the
two pointers on the way is nil. -/
def firstInterfaceAddress (ni : NetworkInterface) : Option String :=
  match ni.PrimaryV4Address with
  | none => none
  | some pa =>
    match pa.OneToOneNat with
    | none => none
    | some nat => some nat.Address

/-- The loop of `addLabel` over the directory listing.  `some r` means the
function ended with `r` inside the loop, `none` that the loop ran to its end. -/
def addLabelLoop (cli : Clientset) (nodeName : String) :
    List Instance → List Event → List Event × Option Result
  | [], tr => (tr, none)
  | inst :: rest, tr =>
    let read : Option String :=
      match inst.NetworkInterfaces with
      | [] => some ""
      | ni :: _ => firstInterfaceAddress ni
    match read with
    | none => (tr, some (Result.panic nilDereference))
    | some externalIP =>
      if nodeName = inst.Name ∧ externalIP ≠ "" then
        let payload : List patchStringValue :=
          [{ Op := "replace", Path := "/metadata/labels/topology.kubernetes.io~1external-ip",
             Value := some externalIP }]
        let tr1 := tr ++ [Event.patchNode nodeName payload]
        match cli.Patch tr nodeName payload with
        | some e => (tr1, some (Result.err ("error in patch request: " ++ e)))
        | none => addLabelLoop cli nodeName rest tr1
      else addLabelLoop cli nodeName rest tr

/-- Source `addLabel`.  A failed directory query is only logged; the loop then
runs over the nil slice. -/
def addLabel (cli : Clientset) (sdk : SDK) (folderID nodeName : String) : List Event × Result :=
  match getComputeInstances sdk folderID [] with
  | (tr, r) =>
    let instances : List Instance :=
      match r with
      | .error _ => []
      | .ok l => l
    match addLabelLoop cli nodeName instances tr with
    | (tr1, some res) => (tr1, res)
    | (tr1, none) => (tr1, Result.ok)

/-- Source `delLabel`. -/
def delLabel (cli : Clientset) (nodeName : String) : List Event × Result :=
  let tr := [Event.getNode nodeName]
  match cli.Get nodeName with
  | .error e => (tr, Result.err ("error getting node: " ++ e))
  | .ok node =>
    if node.Labels "topology.kubernetes.io/external-ip" ≠ none then
      let payload : List patchStringValue :=
        [{ Op := "remove", Path := "/metadata/labels/topology.kubernetes.io~1external-ip",
           Value := none }]
      let tr1 := tr ++ [Event.patchNode nodeName payload]
      match cli.Patch tr nodeName payload with
      | some e => (tr1, Result.err ("error in patch request: " ++ e))
      | none => (tr1, Result.ok)
    else (tr, Result.ok)

/-- Source `processNode`, with the clock reading as first argument.  The two
`Unix()` readings are seconds of RFC 3339 instants, far inside the int64 range,
so their difference is the exact one. -/
def processNode (now : Int) (cli : Clientset) (sdk : SDK) (folderID : String) (node : Node) :
    List Event × Result :=
  if h : 0 < node.Conditions.length then
    let now1 := Unix now
    let lastCondition := node.Conditions.get ⟨node.Conditions.length - 1, by omega⟩
    if now1 - Unix lastCondition.LastTransitionTime < int64Seconds timeout ∧
        lastCondition.Typ = NodeReady then
      if lastCondition.Status = ConditionTrue then addLabel cli sdk folderID node.Name
      else delLabel cli node.Name
    else ([], Result.ok)
  else ([], Result.ok)

end Legacy

/-! ## How the API server reads a patch (RFC 6901 / RFC 6902)

These definitions belong to the specification side: they say which label a
patch path addresses and what a patch does to a label map. -/

/-- Cut a character list at every `/`. -/
def splitSlash : List Char → List (List Char)
  | [] => [[]]
  | c :: cs =>
    if c = '/' then [] :: splitSlash cs
    else
      match splitSlash cs with
      | [] => [[c]]
      | t :: ts => (c :: t) :: ts

/-- Decode one reference token: `~1` is read as `/`, then `~0` as `~`. -/
def decodeToken (tok : String) : String :=
  ReplaceAll (ReplaceAll tok "~1" "/") "~0" "~"

/-- The decoded reference tokens of a JSON Pointer; `none` when the text is not
a pointer (it is non-empty and does not start with `/`). -/
def pointerTokens (path : String) : Option (List String) :=
  match path.data with
  | [] => some []
  | c :: rest =>
    if c = '/' then some ((splitSlash rest).map (fun t => decodeToken (String.mk t)))
    else none

/-- The label key a patch path addresses, when it addresses a node label. -/
def addressedLabel (path : String) : Option String :=
  match pointerTokens path with
  | some [a, b, k] => if a = "metadata" ∧ b = "labels" then some k else none
  | _ => none

/-- Apply one patch operation to a label map: `replace` sets the addressed key
to the value, `remove` deletes the addressed key. -/
def applyOp (labels : String → Option String) (p : patch) : String → Option String :=
  match addressedLabel p.Path with
  | none => labels
  | some k =>
    if p.Op = "replace" then
      match p.Value with
      | some v => fun x => if x = k then some v else labels x
      | none => labels
    else if p.Op = "remove" then fun x => if x = k then none else labels x
    else labels

/-- Apply every patch call of a trace, in order, to a label map. -/
def applyTrace (labels : String → Option String) : List Event → String → Option String
  | [] => labels
  | Event.patchNode _ body :: rest => applyTrace (body.foldl applyOp labels) rest
  | _ :: rest => applyTrace labels rest

/-- The patch calls of a trace. -/
def patchCalls (tr : List Event) : List (String × List patch) :=
  tr.filterMap (fun e =>
    match e with
    | Event.patchNode n b => some (n, b)
    | _ => none)

/-- The directory queries of a trace. -/
def listCalls (tr : List Event) : List Event :=
  tr.filter (fun e =>
    match e with
    | Event.listInstances _ _ => true
    | _ => false)

/-- The public addresses a directory listing holds for a node name: the
one-to-one NAT addresses of the interfaces of the instances of that name, in
list order. -/
def publicAddresses (name : String) (instances : List Instance) : List String :=
  (instances.filter (fun i => decide (i.Name = name))).flatMap
    (fun i => (i.NetworkInterfaces.filterMap GetOneToOneNat).map (fun nat => nat.Address))

/-- The first public address a directory listing holds for a node name. -/
def firstPublicAddress (name : String) (instances : List Instance) : Option String :=
  (publicAddresses name instances).head?

/-- The words "every `/` replaced by `~1`", character by character. -/
def escapeSlash (cs : List Char) : List Char :=
  cs.flatMap (fun c => if c = '/' then ['~', '1'] else [c])

/-! ## Concrete inputs -/

/-- Default of the `label-key` flag, also the key fixed in `main.go`. -/
def defaultLabelKey : String := "topology.kubernetes.io/external-ip"

/-- A cluster whose every patch succeeds and that holds no node. -/
def acceptingClient : Clientset :=
  { Get := fun _ => .error "not found", Patch := fun _ _ _ => none }

/-- An interface with a private address and the given one-to-one NAT address. -/
def natInterface (ip : String) : NetworkInterface :=
  ⟨some ⟨"10.0.0.1", some ⟨ip⟩⟩⟩

/-- An interface with a private address and no NAT mapping. -/
def privateInterface : NetworkInterface :=
  ⟨some ⟨"10.0.0.1", none⟩⟩

/-- A directory answering every query with the given listing. -/
def directoryOf (instances : List Instance) : SDK :=
  { ListInstances := fun _ => .ok instances }

/-- The listing of the join example: `node-a` with one public address and
`node-b` without interfaces. -/
def joinListing : List Instance :=
  [⟨"node-a", [natInterface "1.2.3.4"]⟩, ⟨"node-b", []⟩]

/-- A listing whose only instance has two interfaces with different public
addresses. -/
def twoAddressListing : List Instance :=
  [⟨"node-a", [natInterface "1.1.1.1", natInterface "2.2.2.2"]⟩]

/-- A label map with at most one entry. -/
def singleLabel (key value : String) : String → Option String :=
  fun k => if k = key then some value else none

/-- A node whose only condition is `Ready` with the given status and
transition instant. -/
def nodeWith (name : String) (labels : String → Option String) (status : String)
    (transition : Int) : Node :=
  { Name := name, Labels := labels, Conditions := [⟨"Ready", status, transition⟩] }

/-- One second, in nanoseconds. -/
def second : Int := 1000000000

/-! ## Lemmas on the string functions -/

theorem escapeSlash_nil : escapeSlash [] = [] := rfl

theorem escapeSlash_cons (c : Char) (cs : List Char) :
    escapeSlash (c :: cs) = (if c = '/' then ['~', '1'] else [c]) ++ escapeSlash cs := by
  simp [escapeSlash]

theorem replaceAllAux_slash (new cs : List Char) :
    replaceAllAux ['/'] new 0 cs = cs.flatMap (fun c => if c = '/' then new else [c]) := by
  induction cs with
  | nil => simp [replaceAllAux]
  | cons c cs ih =>
    by_cases hc : c = '/'
    · subst hc
      simp [replaceAllAux, List.isPrefixOf, ih]
    · have hc2 : ¬ ('/' = c) := fun h => hc h.symm
      simp [replaceAllAux, List.isPrefixOf, ih, hc, hc2]

theorem ReplaceAll_slash (s : String) :
    ReplaceAll s "/" "~1" = String.mk (escapeSlash s.data) := by
  have h1 : ("/" : String).data = ['/'] := rfl
  have h2 : ("~1" : String).data = ['~', '1'] := rfl
  simp [ReplaceAll, h1, h2, replaceAllAux_slash, escapeSlash]

theorem escapeSlash_no_slash (cs : List Char) : '/' ∉ escapeSlash cs := by
  induction cs with
  | nil => simp [escapeSlash]
  | cons c cs ih =>
    rw [escapeSlash_cons]
    by_cases hc : c = '/'
    · simp [hc, ih]
    · have hc2 : ¬ ('/' = c) := fun h => hc h.symm
      simp [hc, hc2, ih]

theorem unescape_escapeSlash (cs : List Char) (h : '~' ∉ cs) :
    replaceAllAux ['~', '1'] ['/'] 0 (escapeSlash cs) = cs := by
  induction cs with
  | nil => simp [escapeSlash, replaceAllAux]
  | cons c cs ih =>
    have hc : ¬ ('~' = c) := by
      intro e; apply h; subst e; simp
    have hcs : '~' ∉ cs := fun e => h (by simp [e])
    rw [escapeSlash_cons]
    by_cases hs : c = '/'
    · subst hs
      simp [replaceAllAux, List.isPrefixOf, ih hcs]
    · simp [hs, replaceAllAux, List.isPrefixOf, hc, ih hcs]

theorem untilde_id (cs : List Char) (h : '~' ∉ cs) :
    replaceAllAux ['~', '0'] ['~'] 0 cs = cs := by
  induction cs with
  | nil => simp [replaceAllAux]
  | cons c cs ih =>
    have hc : ¬ ('~' = c) := by
      intro e; apply h; subst e; simp
    have hcs : '~' ∉ cs := fun e => h (by simp [e])
    simp [replaceAllAux, List.isPrefixOf, hc, ih hcs]

theorem decodeToken_escapeSlash (cs : List Char) (h : '~' ∉ cs) :
    decodeToken (String.mk (escapeSlash cs)) = String.mk cs := by
  have h1 : ("/" : String).data = ['/'] := rfl
  have h2 : ("~1" : String).data = ['~', '1'] := rfl
  have h3 : ("~0" : String).data = ['~', '0'] := rfl
  have h4 : ("~" : String).data = ['~'] := rfl
  simp [decodeToken, ReplaceAll, h1, h2, h3, h4, unescape_escapeSlash cs h, untilde_id cs h]

theorem splitSlash_no_slash (t : List Char) (h : '/' ∉ t) : splitSlash t = [t] := by
  induction t with
  | nil => simp [splitSlash]
  | cons c cs ih =>
    have hc : ¬ (c = '/') := fun e => h (by simp [e])
    have hcs : '/' ∉ cs := fun e => h (by simp [e])
    simp [splitSlash, hc, ih hcs]

theorem pointerTokens_labelPath (cs : List Char) (h : '~' ∉ cs) :
    pointerTokens ("/metadata/labels/" ++ String.mk (escapeSlash cs))
      = some ["metadata", "labels", String.mk cs] := by
  have h0 : ("/metadata/labels/" ++ String.mk (escapeSlash cs)).data
      = '/' :: 'm' :: 'e' :: 't' :: 'a' :: 'd' :: 'a' :: 't' :: 'a' :: '/' :: 'l' :: 'a' :: 'b'
        :: 'e' :: 'l' :: 's' :: '/' :: escapeSlash cs := by
    rw [String.data_append]; rfl
  have hs := splitSlash_no_slash _ (escapeSlash_no_slash cs)
  have hd := decodeToken_escapeSlash cs h
  unfold pointerTokens
  rw [h0]
  simp [splitSlash, hs, hd]
  exact ⟨by decide, by decide⟩

theorem labelPath_eq (label : String) :
    "/metadata/labels/" ++ ReplaceAll label "/" "~1"
      = "/metadata/labels/" ++ String.mk (escapeSlash label.data) := by
  rw [ReplaceAll_slash]

theorem addressedLabel_labelPath (label : String) (h : '~' ∉ label.data) :
    addressedLabel ("/metadata/labels/" ++ String.mk (escapeSlash label.data)) = some label := by
  unfold addressedLabel
  rw [pointerTokens_labelPath label.data h]
  simp

/-! ## Lemmas on the handlers of `cmd/external-ip-label-updater/main.go` -/

theorem addNodeLabelWithExternalIP_trace (cli : Clientset) (node : Node)
    (label address : String) (tr : List Event) :
    (Updater.addNodeLabelWithExternalIP cli node label address tr).1
      = tr ++ [Event.patchNode node.Name
          [⟨"replace", "/metadata/labels/" ++ String.mk (escapeSlash label.data), some address⟩]] := by
  unfold Updater.addNodeLabelWithExternalIP
  simp only [labelPath_eq]
  cases cli.Patch tr node.Name _ <;> rfl

theorem removeNodeLabel_trace (cli : Clientset) (node : Node) (label : String)
    (tr : List Event) :
    (Updater.removeNodeLabel cli node label tr).1
      = tr ++ [Event.patchNode node.Name
          [⟨"remove", "/metadata/labels/" ++ String.mk (escapeSlash label.data), none⟩]] := by
  unfold Updater.removeNodeLabel
  simp only [labelPath_eq]
  cases cli.Patch tr node.Name _ <;> rfl

theorem interfacesLoop_events (P : Event → Prop) (cli : Clientset) (node : Node)
    (label : String)
    (hP : ∀ ip, P (Event.patchNode node.Name
      [⟨"replace", "/metadata/labels/" ++ String.mk (escapeSlash label.data), some ip⟩]))
    (ifaces : List NetworkInterface) :
    ∀ tr : List Event, (∀ e ∈ tr, P e) →
      ∀ e ∈ (Updater.interfacesLoop cli node label ifaces tr).1, P e := by
  induction ifaces with
  | nil => intro tr h; simpa [Updater.interfacesLoop] using h
  | cons item rest ih =>
    intro tr h
    unfold Updater.interfacesLoop
    cases hn : GetOneToOneNat item with
    | none => simpa using ih tr h
    | some nat =>
      simp only
      by_cases hl : node.Labels label = some nat.Address
      · simpa [hl] using h
      · have ht := addNodeLabelWithExternalIP_trace cli node label nat.Address tr
        have h1 : ∀ e ∈ (Updater.addNodeLabelWithExternalIP cli node label nat.Address tr).1,
            P e := by
          rw [ht]
          intro e he
          rcases List.mem_append.mp he with he | he
          · exact h e he
          · rw [List.mem_singleton] at he
            rw [he]
            exact hP _
        rw [if_neg hl]
        rcases hr : Updater.addNodeLabelWithExternalIP cli node label nat.Address tr
          with ⟨tr1, _ | er⟩
        · rw [hr] at h1
          exact ih tr1 h1
        · rw [hr] at h1
          exact h1

theorem instancesLoop_events (P : Event → Prop) (cli : Clientset) (node : Node)
    (label : String)
    (hP : ∀ ip, P (Event.patchNode node.Name
      [⟨"replace", "/metadata/labels/" ++ String.mk (escapeSlash label.data), some ip⟩]))
    (instances : List Instance) :
    ∀ tr : List Event, (∀ e ∈ tr, P e) →
      ∀ e ∈ (Updater.instancesLoop cli node label instances tr).1, P e := by
  induction instances with
  | nil => intro tr h; simpa [Updater.instancesLoop] using h
  | cons inst rest ih =>
    intro tr h
    unfold Updater.instancesLoop
    by_cases hn : inst.Name = node.Name
    · have h1 := interfacesLoop_events P cli node label hP inst.NetworkInterfaces tr h
      simp only [ne_eq, hn, not_true_eq_false, if_false]
      rcases hr : Updater.interfacesLoop cli node label inst.NetworkInterfaces tr
        with ⟨tr1, _ | r⟩
      · rw [hr] at h1
        exact ih tr1 h1
      · rw [hr] at h1
        exact h1
    · simpa [hn] using ih tr h

theorem updateNodesLabel_events (P : Event → Prop) (now : Int) (node : Node)
    (cli : Clientset) (sdk : SDK) (delay : Int) (folderId label : String)
    (hL : P (Event.listInstances folderId 100))
    (hA : ∀ ip, P (Event.patchNode node.Name
      [⟨"replace", "/metadata/labels/" ++ String.mk (escapeSlash label.data), some ip⟩]))
    (hR : P (Event.patchNode node.Name
      [⟨"remove", "/metadata/labels/" ++ String.mk (escapeSlash label.data), none⟩])) :
    ∀ e ∈ (Updater.updateNodesLabel now node cli sdk delay folderId label).1, P e := by
  unfold Updater.updateNodesLabel
  cases Updater.getNodeReadyCondition node with
  | none => simp
  | some ready =>
    simp only
    by_cases hs : ready.Status = ConditionTrue
    · rw [if_pos hs]
      by_cases hd : delay < Since now ready.LastTransitionTime
      · simp [hd]
      · rw [if_neg hd]
        unfold Updater.getYandexCloudComputeInstances
        cases sdk.ListInstances folderId with
        | error er => simpa using hL
        | ok instances =>
          have h1 := instancesLoop_events P cli node label hA instances
            [Event.listInstances folderId 100] (by simpa using hL)
          simp only [List.nil_append]
          rcases hr : Updater.instancesLoop cli node label instances
            [Event.listInstances folderId 100] with ⟨tr1, _ | r⟩
          · rw [hr] at h1
            exact h1
          · rw [hr] at h1
            exact h1
    · rw [if_neg hs]
      by_cases hl : node.Labels label = none
      · simp [hl]
      · rw [if_neg hl]
        have ht := removeNodeLabel_trace cli node label []
        rcases hr : Updater.removeNodeLabel cli node label [] with ⟨tr1, _ | er⟩
        · rw [hr] at ht
          simp only at ht
          simp only [ht, List.nil_append, List.mem_singleton]
          intro e he
          rw [he]; exact hR
        · rw [hr] at ht
          simp only at ht
          simp only [ht, List.nil_append, List.mem_singleton]
          intro e he
          rw [he]; exact hR

theorem publicAddresses_cons (name : String) (inst : Instance) (rest : List Instance) :
    publicAddresses name (inst :: rest)
      = (if inst.Name = name then
          (inst.NetworkInterfaces.filterMap GetOneToOneNat).map (fun nat => nat.Address)
         else []) ++ publicAddresses name rest := by
  unfold publicAddresses
  by_cases h : inst.Name = name <;> simp [List.filter_cons, h]

theorem interfacesLoop_extends (cli : Clientset) (node : Node) (label : String)
    (ifaces : List NetworkInterface) :
    ∀ tr : List Event, ∃ ex, (Updater.interfacesLoop cli node label ifaces tr).1 = tr ++ ex := by
  induction ifaces with
  | nil => intro tr; exact ⟨[], by simp [Updater.interfacesLoop]⟩
  | cons item rest ih =>
    intro tr
    unfold Updater.interfacesLoop
    cases hn : GetOneToOneNat item with
    | none => simpa using ih tr
    | some nat =>
      simp only
      by_cases hl : node.Labels label = some nat.Address
      · exact ⟨[], by simp [hl]⟩
      · rw [if_neg hl]
        have ht := addNodeLabelWithExternalIP_trace cli node label nat.Address tr
        rcases hr : Updater.addNodeLabelWithExternalIP cli node label nat.Address tr
          with ⟨tr1, _ | er⟩
        · rw [hr] at ht
          simp only at ht
          obtain ⟨ex, hex⟩ := ih tr1
          simp only
          rw [hex, ht, List.append_assoc]
          exact ⟨_, rfl⟩
        · rw [hr] at ht
          simp only at ht
          exact ⟨_, ht⟩

theorem instancesLoop_extends (cli : Clientset) (node : Node) (label : String)
    (instances : List Instance) :
    ∀ tr : List Event, ∃ ex, (Updater.instancesLoop cli node label instances tr).1 = tr ++ ex := by
  induction instances with
  | nil => intro tr; exact ⟨[], by simp [Updater.instancesLoop]⟩
  | cons inst rest ih =>
    intro tr
    unfold Updater.instancesLoop
    by_cases hn : inst.Name = node.Name
    · simp only [ne_eq, hn, not_true_eq_false, if_false]
      obtain ⟨ex1, h1⟩ := interfacesLoop_extends cli node label inst.NetworkInterfaces tr
      rcases hr : Updater.interfacesLoop cli node label inst.NetworkInterfaces tr
        with ⟨tr1, _ | r⟩
      · rw [hr] at h1
        simp only at h1
        obtain ⟨ex2, h2⟩ := ih tr1
        refine ⟨ex1 ++ ex2, ?_⟩
        simp only
        rw [h2, h1, List.append_assoc]
      · rw [hr] at h1
        exact ⟨ex1, h1⟩
    · simpa [hn] using ih tr

theorem interfacesLoop_none (cli : Clientset) (node : Node) (label : String)
    (ifaces : List NetworkInterface) (tr : List Event)
    (h : ifaces.filterMap GetOneToOneNat = []) :
    Updater.interfacesLoop cli node label ifaces tr = (tr, none) := by
  induction ifaces with
  | nil => rfl
  | cons item rest ih =>
    unfold Updater.interfacesLoop
    cases hn : GetOneToOneNat item with
    | none =>
      rw [List.filterMap_cons_none hn] at h
      simpa using ih h
    | some nat =>
      rw [List.filterMap_cons_some hn] at h
      exact absurd h (by simp)

theorem interfacesLoop_first (cli : Clientset) (node : Node) (label : String)
    (ifaces : List NetworkInterface) (tr : List Event) (nat : OneToOneNat)
    (h : (ifaces.filterMap GetOneToOneNat).head? = some nat)
    (hl : node.Labels label ≠ some nat.Address) :
    ∃ rest r, Updater.interfacesLoop cli node label ifaces tr
      = (tr ++ Event.patchNode node.Name
          [⟨"replace", "/metadata/labels/" ++ String.mk (escapeSlash label.data),
            some nat.Address⟩] :: rest, r) := by
  induction ifaces with
  | nil => simp at h
  | cons item rest ih =>
    unfold Updater.interfacesLoop
    cases hn : GetOneToOneNat item with
    | none =>
      rw [List.filterMap_cons_none hn] at h
      simpa using ih h
    | some nat1 =>
      rw [List.filterMap_cons_some hn] at h
      simp only [List.head?_cons, Option.some.injEq] at h
      subst h
      simp only [if_neg hl]
      have ht := addNodeLabelWithExternalIP_trace cli node label nat1.Address tr
      rcases hr : Updater.addNodeLabelWithExternalIP cli node label nat1.Address tr
        with ⟨tr1, _ | er⟩
      · rw [hr] at ht
        simp only at ht
        subst ht
        obtain ⟨ex, hex⟩ := interfacesLoop_extends cli node label rest
          (tr ++ [Event.patchNode node.Name
            [⟨"replace", "/metadata/labels/" ++ String.mk (escapeSlash label.data),
              some nat1.Address⟩]])
        simp only
        rcases hq : Updater.interfacesLoop cli node label rest
          (tr ++ [Event.patchNode node.Name
            [⟨"replace", "/metadata/labels/" ++ String.mk (escapeSlash label.data),
              some nat1.Address⟩]]) with ⟨t2, r2⟩
        rw [hq] at hex
        simp only at hex
        subst hex
        exact ⟨ex, r2, by rw [List.append_assoc]; rfl⟩
      · rw [hr] at ht
        simp only at ht
        subst ht
        exact ⟨[], _, rfl⟩

theorem instancesLoop_none (cli : Clientset) (node : Node) (label : String)
    (instances : List Instance) (tr : List Event)
    (h : publicAddresses node.Name instances = []) :
    Updater.instancesLoop cli node label instances tr = (tr, none) := by
  induction instances with
  | nil => rfl
  | cons inst rest ih =>
    rw [publicAddresses_cons] at h
    unfold Updater.instancesLoop
    by_cases hn : inst.Name = node.Name
    · simp only [hn, if_true, List.append_eq_nil, List.map_eq_nil_iff] at h
      simp only [ne_eq, hn, not_true_eq_false, if_false]
      rw [interfacesLoop_none cli node label _ tr h.1]
      exact ih h.2
    · simp only [hn, if_false, List.nil_append] at h
      simpa [hn] using ih h

theorem instancesLoop_first (cli : Clientset) (node : Node) (label : String)
    (instances : List Instance) (tr : List Event) (a : String)
    (h : firstPublicAddress node.Name instances = some a)
    (hl : node.Labels label ≠ some a) :
    ∃ rest r, Updater.instancesLoop cli node label instances tr
      = (tr ++ Event.patchNode node.Name
          [⟨"replace", "/metadata/labels/" ++ String.mk (escapeSlash label.data),
            some a⟩] :: rest, r) := by
  induction instances with
  | nil => simp [firstPublicAddress, publicAddresses] at h
  | cons inst rest ih =>
    unfold firstPublicAddress at h ih
    rw [publicAddresses_cons] at h
    unfold Updater.instancesLoop
    by_cases hn : inst.Name = node.Name
    · simp only [hn, if_true] at h
      simp only [ne_eq, hn, not_true_eq_false, if_false]
      cases hf : inst.NetworkInterfaces.filterMap GetOneToOneNat with
      | nil =>
        rw [hf] at h
        simp only [List.map_nil, List.nil_append] at h
        rw [interfacesLoop_none cli node label _ tr hf]
        exact ih h
      | cons nat more =>
        rw [hf] at h
        simp only [List.map_cons, List.cons_append, List.head?_cons, Option.some.injEq] at h
        subst h
        obtain ⟨ex, r, hr⟩ := interfacesLoop_first cli node label inst.NetworkInterfaces tr nat
          (by rw [hf]; rfl) hl
        rw [hr]
        cases r with
        | some res => exact ⟨ex, some res, rfl⟩
        | none =>
          simp only
          obtain ⟨ex2, h2⟩ := instancesLoop_extends cli node label rest
            (tr ++ Event.patchNode node.Name
              [⟨"replace", "/metadata/labels/" ++ String.mk (escapeSlash label.data),
                some nat.Address⟩] :: ex)
          rcases hq : Updater.instancesLoop cli node label rest
            (tr ++ Event.patchNode node.Name
              [⟨"replace", "/metadata/labels/" ++ String.mk (escapeSlash label.data),
                some nat.Address⟩] :: ex) with ⟨t2, r2⟩
          rw [hq] at h2
          simp only at h2
          subst h2
          exact ⟨ex ++ ex2, r2, by rw [List.append_assoc]; rfl⟩
    · simp only [hn, if_false, List.nil_append] at h
      simpa [hn] using ih h

theorem getNodeReadyCondition_none (conds : List NodeCondition)
    (h : ∀ c ∈ conds, c.Typ ≠ NodeReady) :
    Updater.getNodeReadyCondition.go conds = none := by
  induction conds with
  | nil => rfl
  | cons c rest ih =>
    have hc : c.Typ ≠ NodeReady := h c (by simp)
    have hrest : ∀ x ∈ rest, x.Typ ≠ NodeReady := fun x hx => h x (by simp [hx])
    simp [Updater.getNodeReadyCondition.go, hc, ih hrest]

theorem getNodeReadyCondition_first (pre post : List NodeCondition) (c : NodeCondition)
    (h : ∀ x ∈ pre, x.Typ ≠ NodeReady) (hc : c.Typ = NodeReady) :
    Updater.getNodeReadyCondition.go (pre ++ c :: post) = some c := by
  induction pre with
  | nil => simp [Updater.getNodeReadyCondition.go, hc]
  | cons x rest ih =>
    have hx : x.Typ ≠ NodeReady := h x (by simp)
    have hrest : ∀ y ∈ rest, y.Typ ≠ NodeReady := fun y hy => h y (by simp [hy])
    simp [Updater.getNodeReadyCondition.go, hx, ih hrest]

theorem interfacesLoop_congr (cli : Clientset) (n1 n2 : Node) (label : String)
    (hN : n1.Name = n2.Name) (hL : n1.Labels = n2.Labels) (ifaces : List NetworkInterface) :
    ∀ tr, Updater.interfacesLoop cli n1 label ifaces tr
      = Updater.interfacesLoop cli n2 label ifaces tr := by
  induction ifaces with
  | nil => intro tr; rfl
  | cons item rest ih =>
    intro tr
    unfold Updater.interfacesLoop
    cases GetOneToOneNat item with
    | none => exact ih tr
    | some nat =>
      simp only [Updater.addNodeLabelWithExternalIP, hN, hL]
      split
      · rfl
      · cases cli.Patch tr n2.Name _ with
        | none => exact ih _
        | some er => rfl

theorem instancesLoop_congr (cli : Clientset) (n1 n2 : Node) (label : String)
    (hN : n1.Name = n2.Name) (hL : n1.Labels = n2.Labels) (instances : List Instance) :
    ∀ tr, Updater.instancesLoop cli n1 label instances tr
      = Updater.instancesLoop cli n2 label instances tr := by
  induction instances with
  | nil => intro tr; rfl
  | cons inst rest ih =>
    intro tr
    unfold Updater.instancesLoop
    rw [interfacesLoop_congr cli n1 n2 label hN hL, hN]
    split
    · exact ih tr
    · rcases Updater.interfacesLoop cli n2 label inst.NetworkInterfaces tr with ⟨tr1, _ | r⟩
      · exact ih tr1
      · rfl

theorem updateNodesLabel_congr (now : Int) (n1 n2 : Node) (cli : Clientset) (sdk : SDK)
    (delay : Int) (folderId label : String)
    (hN : n1.Name = n2.Name) (hL : n1.Labels = n2.Labels)
    (hC : Updater.getNodeReadyCondition n1 = Updater.getNodeReadyCondition n2) :
    Updater.updateNodesLabel now n1 cli sdk delay folderId label
      = Updater.updateNodesLabel now n2 cli sdk delay folderId label := by
  unfold Updater.updateNodesLabel
  rw [hC]
  cases Updater.getNodeReadyCondition n2 with
  | none => simp [hN]
  | some ready =>
    simp only [Updater.removeNodeLabel, hN, hL]
    split
    · split
      · rfl
      · rcases Updater.getYandexCloudComputeInstances sdk folderId [] with ⟨tr, er | instances⟩
        · rfl
        · simp only [instancesLoop_congr cli n1 n2 label hN hL]
    · rfl

theorem timeSub_exact (now t delay : Int) (h1 : minDuration ≤ delay) (h2 : delay < maxDuration) :
    delay < Since now t ↔ delay < now - t := by
  unfold Since timeSub
  simp only [minDuration, maxDuration] at *
  norm_num at *
  split_ifs <;> constructor <;> intro h <;> omega

theorem applyOp_frame (labels : String → Option String) (p : patch) (label k : String)
    (h : addressedLabel p.Path = some label) (hk : k ≠ label) :
    applyOp labels p k = labels k := by
  unfold applyOp
  rw [h]
  simp only
  split
  · cases p.Value with
    | none => rfl
    | some v => simp [hk]
  · split
    · simp [hk]
    · rfl

theorem applyTrace_frame (label : String) (tr : List Event)
    (h : ∀ e ∈ tr, ∀ n b, e = Event.patchNode n b →
      ∃ p, b = [p] ∧ addressedLabel p.Path = some label) :
    ∀ (labels : String → Option String) (k : String), k ≠ label →
      applyTrace labels tr k = labels k := by
  induction tr with
  | nil => intro labels k _; rfl
  | cons e rest ih =>
    have hrest : ∀ x ∈ rest, ∀ n b, x = Event.patchNode n b →
        ∃ p, b = [p] ∧ addressedLabel p.Path = some label :=
      fun x hx => h x (by simp [hx])
    intro labels k hk
    cases e with
    | listInstances f n => exact ih hrest labels k hk
    | getNode n => exact ih hrest labels k hk
    | patchNode n b =>
      obtain ⟨p, hb, hp⟩ := h (Event.patchNode n b) (by simp) n b rfl
      subst hb
      simp only [applyTrace, List.foldl_cons, List.foldl_nil]
      rw [ih hrest (applyOp labels p) k hk]
      exact applyOp_frame labels p label k hp hk

/-! ## Lemmas on the handlers of `main.go` -/

theorem addLabelLoop_events (P : Event → Prop) (cli : Clientset) (nodeName : String)
    (hP : ∀ ip, P (Event.patchNode nodeName
      [⟨"replace", "/metadata/labels/topology.kubernetes.io~1external-ip", some ip⟩]))
    (instances : List Instance) :
    ∀ tr : List Event, (∀ e ∈ tr, P e) →
      ∀ e ∈ (Legacy.addLabelLoop cli nodeName instances tr).1, P e := by
  induction instances with
  | nil => intro tr h; simpa [Legacy.addLabelLoop] using h
  | cons inst rest ih =>
    intro tr h
    unfold Legacy.addLabelLoop
    simp only
    split
    · exact h
    · rename_i externalIP _
      split
      · have h1 : ∀ e ∈ tr ++ [Event.patchNode nodeName
            [⟨"replace", "/metadata/labels/topology.kubernetes.io~1external-ip",
              some externalIP⟩]], P e := by
          intro e he
          rcases List.mem_append.mp he with he | he
          · exact h e he
          · rw [List.mem_singleton] at he
            rw [he]
            exact hP _
        split
        · exact h1
        · exact ih _ h1
      · exact ih tr h

theorem addLabel_events (P : Event → Prop) (cli : Clientset) (sdk : SDK)
    (folderID nodeName : String)
    (hL : P (Event.listInstances folderID 50))
    (hP : ∀ ip, P (Event.patchNode nodeName
      [⟨"replace", "/metadata/labels/topology.kubernetes.io~1external-ip", some ip⟩])) :
    ∀ e ∈ (Legacy.addLabel cli sdk folderID nodeName).1, P e := by
  unfold Legacy.addLabel Legacy.getComputeInstances
  simp only [List.nil_append]
  have h0 : ∀ e ∈ [Event.listInstances folderID 50], P e := by
    intro e he
    rw [List.mem_singleton] at he
    rw [he]; exact hL
  cases sdk.ListInstances folderID with
  | error er =>
    simp only
    have h1 := addLabelLoop_events P cli nodeName hP [] _ h0
    rcases hq : Legacy.addLabelLoop cli nodeName [] [Event.listInstances folderID 50]
      with ⟨tr1, _ | r⟩
    · rw [hq] at h1; exact h1
    · rw [hq] at h1; exact h1
  | ok instances =>
    simp only
    have h1 := addLabelLoop_events P cli nodeName hP instances _ h0
    rcases hq : Legacy.addLabelLoop cli nodeName instances [Event.listInstances folderID 50]
      with ⟨tr1, _ | r⟩
    · rw [hq] at h1; exact h1
    · rw [hq] at h1; exact h1

theorem delLabel_events (P : Event → Prop) (cli : Clientset) (nodeName : String)
    (hG : P (Event.getNode nodeName))
    (hP : P (Event.patchNode nodeName
      [⟨"remove", "/metadata/labels/topology.kubernetes.io~1external-ip", none⟩])) :
    ∀ e ∈ (Legacy.delLabel cli nodeName).1, P e := by
  unfold Legacy.delLabel
  have h0 : ∀ e ∈ [Event.getNode nodeName], P e := by
    intro e he
    rw [List.mem_singleton] at he
    rw [he]; exact hG
  have h1 : ∀ e ∈ [Event.getNode nodeName] ++ [Event.patchNode nodeName
      [⟨"remove", "/metadata/labels/topology.kubernetes.io~1external-ip", none⟩]], P e := by
    intro e he
    rcases List.mem_append.mp he with he | he
    · exact h0 e he
    · rw [List.mem_singleton] at he
      rw [he]; exact hP
  simp only
  cases cli.Get nodeName with
  | error er => exact h0
  | ok node =>
    simp only
    split
    · split
      · exact h1
      · exact h1
    · exact h0

/-! ## Claims on `cmd/external-ip-label-updater/main.go` -/

/-- C1, as stated, fails: the node is ready within the delay, the instance of
its name has an interface exposing `2.2.2.2`, the node's label differs from
`2.2.2.2`, and yet no patch is issued, because the first exposed address
already equals the label and the handler returns there. -/
theorem C1_counterexample :
    Updater.getNodeReadyCondition
        (nodeWith "node-a" (singleLabel defaultLabelKey "1.1.1.1") "True" 0)
      = some ⟨"Ready", "True", 0⟩
    ∧ Since second 0 ≤ 3 * second
    ∧ natInterface "2.2.2.2" ∈ (⟨"node-a", [natInterface "1.1.1.1", natInterface "2.2.2.2"]⟩ :
        Instance).NetworkInterfaces
    ∧ GetOneToOneNat (natInterface "2.2.2.2") = some ⟨"2.2.2.2"⟩
    ∧ singleLabel defaultLabelKey "1.1.1.1" defaultLabelKey ≠ some "2.2.2.2"
    ∧ Updater.updateNodesLabel second
        (nodeWith "node-a" (singleLabel defaultLabelKey "1.1.1.1") "True" 0)
        acceptingClient (directoryOf twoAddressListing) (3 * second) "f" defaultLabelKey
      = ([Event.listInstances "f" 100], Result.ok) := by
  refine ⟨by decide, by decide, by decide, by decide, by decide, by decide⟩

/-- C1, amended: for a node whose Ready condition is True and transitioned
within the delay, and a directory listing `instances`: (i) if no instance has
the node's name, the only call is the directory query and the result is
success; (ii) the same holds if no interface of an instance of that name
exposes a one-to-one NAT address; (iii) if the first exposed address, in list
order, among the instances of that name is `a` and the node's label under the
managed key is absent or differs from `a`, the call right after the directory
query is a `replace` patch of the managed key with value `a`. -/
theorem C1_join_correctness (now : Int) (node : Node) (cli : Clientset) (sdk : SDK)
    (delay : Int) (folderId label : String) (ready : NodeCondition)
    (instances : List Instance)
    (hr : Updater.getNodeReadyCondition node = some ready)
    (hs : ready.Status = ConditionTrue)
    (hd : Since now ready.LastTransitionTime ≤ delay)
    (hq : sdk.ListInstances folderId = .ok instances) :
    ((∀ i ∈ instances, i.Name ≠ node.Name) →
      Updater.updateNodesLabel now node cli sdk delay folderId label
        = ([Event.listInstances folderId 100], Result.ok))
    ∧ ((∀ i ∈ instances, i.Name = node.Name →
          ∀ item ∈ i.NetworkInterfaces, GetOneToOneNat item = none) →
      Updater.updateNodesLabel now node cli sdk delay folderId label
        = ([Event.listInstances folderId 100], Result.ok))
    ∧ (∀ a, firstPublicAddress node.Name instances = some a → node.Labels label ≠ some a →
      ∃ rest, (Updater.updateNodesLabel now node cli sdk delay folderId label).1
        = Event.listInstances folderId 100
          :: Event.patchNode node.Name
              [⟨"replace", "/metadata/labels/" ++ String.mk (escapeSlash label.data), some a⟩]
          :: rest) := by
  have hnd : ¬ delay < Since now ready.LastTransitionTime := not_lt.mpr hd
  have hunf : Updater.updateNodesLabel now node cli sdk delay folderId label
      = match Updater.instancesLoop cli node label instances
          [Event.listInstances folderId 100] with
        | (tr1, some r) => (tr1, r)
        | (tr1, none) => (tr1, Result.ok) := by
    unfold Updater.updateNodesLabel
    rw [hr]
    simp only [if_pos hs, if_neg hnd, Updater.getYandexCloudComputeInstances, hq,
      List.nil_append]
  have hnone : (∀ i ∈ instances, i.Name = node.Name →
        ∀ item ∈ i.NetworkInterfaces, GetOneToOneNat item = none) →
      Updater.updateNodesLabel now node cli sdk delay folderId label
        = ([Event.listInstances folderId 100], Result.ok) := by
    intro h
    have hp : publicAddresses node.Name instances = [] := by
      unfold publicAddresses
      rw [List.flatMap_eq_nil_iff]
      intro i hi
      rw [List.mem_filter] at hi
      have hname : i.Name = node.Name := by simpa using hi.2
      rw [List.map_eq_nil_iff, List.filterMap_eq_nil_iff]
      exact h i hi.1 hname
    rw [hunf, instancesLoop_none cli node label instances _ hp]
  refine ⟨fun h => hnone (fun i hi hn => absurd hn (h i hi)), hnone, ?_⟩
  intro a ha hl
  obtain ⟨rest, r, hloop⟩ := instancesLoop_first cli node label instances
    [Event.listInstances folderId 100] a ha hl
  rw [hunf, hloop]
  cases r <;> exact ⟨rest, rfl⟩

/-- Witness of C1 on the join example: `node-a` gets a `replace` patch with
`1.2.3.4`; `node-b` (no interface) and `node-c` (absent) get no patch. -/
theorem C1_join_correctness_witness :
    (∃ rest, (Updater.updateNodesLabel second (nodeWith "node-a" (fun _ => none) "True" 0)
        acceptingClient (directoryOf joinListing) (3 * second) "f" defaultLabelKey).1
      = Event.listInstances "f" 100
        :: Event.patchNode "node-a"
            [⟨"replace", "/metadata/labels/" ++ String.mk (escapeSlash defaultLabelKey.data),
              some "1.2.3.4"⟩]
        :: rest)
    ∧ Updater.updateNodesLabel second (nodeWith "node-b" (fun _ => none) "True" 0)
        acceptingClient (directoryOf joinListing) (3 * second) "f" defaultLabelKey
      = ([Event.listInstances "f" 100], Result.ok)
    ∧ Updater.updateNodesLabel second (nodeWith "node-c" (fun _ => none) "True" 0)
        acceptingClient (directoryOf joinListing) (3 * second) "f" defaultLabelKey
      = ([Event.listInstances "f" 100], Result.ok) :=
  ⟨(C1_join_correctness second (nodeWith "node-a" (fun _ => none) "True" 0) acceptingClient
      (directoryOf joinListing) (3 * second) "f" defaultLabelKey ⟨"Ready", "True", 0⟩
      joinListing (by decide) (by decide) (by decide) rfl).2.2 "1.2.3.4" (by decide)
      (by decide),
   (C1_join_correctness second (nodeWith "node-b" (fun _ => none) "True" 0) acceptingClient
      (directoryOf joinListing) (3 * second) "f" defaultLabelKey ⟨"Ready", "True", 0⟩
      joinListing (by decide) (by decide) (by decide) rfl).2.1 (by decide),
   (C1_join_correctness second (nodeWith "node-c" (fun _ => none) "True" 0) acceptingClient
      (directoryOf joinListing) (3 * second) "f" defaultLabelKey ⟨"Ready", "True", 0⟩
      joinListing (by decide) (by decide) (by decide) rfl).1 (by decide)⟩

/-- C4: for a node whose first Ready condition has a status other than True,
whatever the clock, the delay and the directory: if the managed key is present
the calls made are exactly one `remove` patch for that key, and if it is
absent no call is made and the result is success; in neither case is the
directory queried. -/
theorem C4_not_ready_removal (now : Int) (node : Node) (cli : Clientset) (sdk : SDK)
    (delay : Int) (folderId label : String) (ready : NodeCondition)
    (hr : Updater.getNodeReadyCondition node = some ready)
    (hs : ready.Status ≠ ConditionTrue) :
    (node.Labels label ≠ none →
      (Updater.updateNodesLabel now node cli sdk delay folderId label).1
        = [Event.patchNode node.Name
            [⟨"remove", "/metadata/labels/" ++ String.mk (escapeSlash label.data), none⟩]])
    ∧ (node.Labels label = none →
      Updater.updateNodesLabel now node cli sdk delay folderId label = ([], Result.ok))
    ∧ listCalls (Updater.updateNodesLabel now node cli sdk delay folderId label).1 = [] := by
  have hunf : Updater.updateNodesLabel now node cli sdk delay folderId label
      = if node.Labels label = none then ([], Result.ok)
        else
          match Updater.removeNodeLabel cli node label [] with
          | (tr, some e) => (tr, Result.err ("failed to remove label from node: " ++ e))
          | (tr, none) => (tr, Result.ok) := by
    unfold Updater.updateNodesLabel
    rw [hr]
    simp only [if_neg hs]
  have ht := removeNodeLabel_trace cli node label []
  have hpresent : node.Labels label ≠ none →
      (Updater.updateNodesLabel now node cli sdk delay folderId label).1
        = [Event.patchNode node.Name
            [⟨"remove", "/metadata/labels/" ++ String.mk (escapeSlash label.data), none⟩]] := by
    intro hl
    rw [hunf, if_neg hl]
    rcases hrm : Updater.removeNodeLabel cli node label [] with ⟨tr, _ | er⟩
    · rw [hrm] at ht; simpa using ht
    · rw [hrm] at ht; simpa using ht
  have habsent : node.Labels label = none →
      Updater.updateNodesLabel now node cli sdk delay folderId label = ([], Result.ok) := by
    intro hl
    rw [hunf, if_pos hl]
  refine ⟨hpresent, habsent, ?_⟩
  by_cases hl : node.Labels label = none
  · rw [habsent hl]; rfl
  · rw [hpresent hl]; rfl

/-- Witness of C4: a not-ready node labelled `5.6.7.8` under the default key
gets exactly one removal; the same node without the label gets no call. -/
theorem C4_not_ready_removal_witness :
    (Updater.updateNodesLabel second
        (nodeWith "node-a" (singleLabel defaultLabelKey "5.6.7.8") "False" 0)
        acceptingClient (directoryOf joinListing) (3 * second) "f" defaultLabelKey).1
      = [Event.patchNode "node-a"
          [⟨"remove", "/metadata/labels/" ++ String.mk (escapeSlash defaultLabelKey.data),
            none⟩]]
    ∧ Updater.updateNodesLabel second (nodeWith "node-a" (fun _ => none) "Unknown" 0)
        acceptingClient (directoryOf joinListing) (3 * second) "f" defaultLabelKey
      = ([], Result.ok) :=
  ⟨(C4_not_ready_removal second
      (nodeWith "node-a" (singleLabel defaultLabelKey "5.6.7.8") "False" 0)
      acceptingClient (directoryOf joinListing) (3 * second) "f" defaultLabelKey
      ⟨"Ready", "False", 0⟩ (by decide) (by decide)).1 (by decide),
   (C4_not_ready_removal second (nodeWith "node-a" (fun _ => none) "Unknown" 0)
      acceptingClient (directoryOf joinListing) (3 * second) "f" defaultLabelKey
      ⟨"Ready", "Unknown", 0⟩ (by decide) (by decide)).2.1 (by decide)⟩

/-- C5: for a node whose first Ready condition is True, with `elapsed` the
duration `time.Since(lastTransitionTime)`: when `elapsed > delay` the handler
returns success with no call at all, whatever the directory and the labels;
when `elapsed ≤ delay` (the boundary included) the node is treated as recently
ready and the directory is queried.  For every delay below the largest
duration, `elapsed > delay` is the same as `now - lastTransitionTime > delay`
on the exact instants. -/
theorem C5_stable_ready_suppression (now : Int) (node : Node) (cli : Clientset) (sdk : SDK)
    (delay : Int) (folderId label : String) (ready : NodeCondition)
    (hr : Updater.getNodeReadyCondition node = some ready)
    (hs : ready.Status = ConditionTrue) :
    (delay < Since now ready.LastTransitionTime →
      Updater.updateNodesLabel now node cli sdk delay folderId label = ([], Result.ok))
    ∧ (Since now ready.LastTransitionTime ≤ delay →
      ∃ rest, (Updater.updateNodesLabel now node cli sdk delay folderId label).1
        = Event.listInstances folderId 100 :: rest)
    ∧ (minDuration ≤ delay → delay < maxDuration →
      (delay < Since now ready.LastTransitionTime ↔ delay < now - ready.LastTransitionTime)) := by
  refine ⟨?_, ?_, fun h1 h2 => timeSub_exact now _ delay h1 h2⟩
  · intro hd
    unfold Updater.updateNodesLabel
    rw [hr]
    simp only [if_pos hs, if_pos hd]
  · intro hd
    have hnd : ¬ delay < Since now ready.LastTransitionTime := not_lt.mpr hd
    unfold Updater.updateNodesLabel
    rw [hr]
    simp only [if_pos hs, if_neg hnd, Updater.getYandexCloudComputeInstances, List.nil_append]
    cases sdk.ListInstances folderId with
    | error er => exact ⟨[], rfl⟩
    | ok instances =>
      simp only
      obtain ⟨ex, hex⟩ := instancesLoop_extends cli node label instances
        [Event.listInstances folderId 100]
      rcases hq : Updater.instancesLoop cli node label instances
        [Event.listInstances folderId 100] with ⟨tr1, _ | r⟩
      · rw [hq] at hex
        exact ⟨ex, by simpa using hex⟩
      · rw [hq] at hex
        exact ⟨ex, by simpa using hex⟩

/-- Witness of C5: a transition ten minutes ago with a delay of three seconds
yields no call; a transition exactly three seconds ago is still recent. -/
theorem C5_stable_ready_suppression_witness :
    Updater.updateNodesLabel (600 * second) (nodeWith "node-a" (fun _ => none) "True" 0)
        acceptingClient (directoryOf joinListing) (3 * second) "f" defaultLabelKey
      = ([], Result.ok)
    ∧ (∃ rest, (Updater.updateNodesLabel (3 * second)
        (nodeWith "node-a" (fun _ => none) "True" 0)
        acceptingClient (directoryOf joinListing) (3 * second) "f" defaultLabelKey).1
      = Event.listInstances "f" 100 :: rest)
    ∧ ((3 * second < Since (600 * second) 0) ↔ (3 * second < 600 * second - 0)) :=
  ⟨(C5_stable_ready_suppression (600 * second) (nodeWith "node-a" (fun _ => none) "True" 0)
      acceptingClient (directoryOf joinListing) (3 * second) "f" defaultLabelKey
      ⟨"Ready", "True", 0⟩ (by decide) (by decide)).1 (by decide),
   (C5_stable_ready_suppression (3 * second) (nodeWith "node-a" (fun _ => none) "True" 0)
      acceptingClient (directoryOf joinListing) (3 * second) "f" defaultLabelKey
      ⟨"Ready", "True", 0⟩ (by decide) (by decide)).2.1 (by decide),
   (C5_stable_ready_suppression (600 * second) (nodeWith "node-a" (fun _ => none) "True" 0)
      acceptingClient (directoryOf joinListing) (3 * second) "f" defaultLabelKey
      ⟨"Ready", "True", 0⟩ (by decide) (by decide)).2.2 (by decide) (by decide)⟩

/-- C6: a node whose condition list holds no condition of type Ready (the
empty list included) makes the handler fail with an error and no call at all;
when a Ready condition exists, `getNodeReadyCondition` returns the first one in
list order, and the handler behaves as on the node whose only condition is
that one. -/
theorem C6_missing_ready_condition (now : Int) (node : Node) (cli : Clientset) (sdk : SDK)
    (delay : Int) (folderId label : String) :
    ((∀ c ∈ node.Conditions, c.Typ ≠ NodeReady) →
      Updater.getNodeReadyCondition node = none
      ∧ ∃ msg, Updater.updateNodesLabel now node cli sdk delay folderId label
          = ([], Result.err msg))
    ∧ (∀ pre c post, node.Conditions = pre ++ c :: post →
        (∀ x ∈ pre, x.Typ ≠ NodeReady) → c.Typ = NodeReady →
        Updater.getNodeReadyCondition node = some c
        ∧ Updater.updateNodesLabel now node cli sdk delay folderId label
            = Updater.updateNodesLabel now { node with Conditions := [c] } cli sdk delay
                folderId label) := by
  constructor
  · intro h
    have hn : Updater.getNodeReadyCondition node = none := by
      unfold Updater.getNodeReadyCondition
      exact getNodeReadyCondition_none _ h
    refine ⟨hn, ?_⟩
    unfold Updater.updateNodesLabel
    rw [hn]
    exact ⟨_, rfl⟩
  · intro pre c post hc hpre hty
    have hfst : Updater.getNodeReadyCondition node = some c := by
      unfold Updater.getNodeReadyCondition
      rw [hc]
      exact getNodeReadyCondition_first pre post c hpre hty
    refine ⟨hfst, ?_⟩
    apply updateNodesLabel_congr now node { node with Conditions := [c] } cli sdk delay
      folderId label rfl rfl
    rw [hfst]
    simp [Updater.getNodeReadyCondition, Updater.getNodeReadyCondition.go, hty]

/-- Witness of C6: an empty condition list fails with no call; a Ready
condition in second position is the one returned. -/
theorem C6_missing_ready_condition_witness :
    (Updater.getNodeReadyCondition
        { Name := "node-a", Labels := fun _ => none, Conditions := [] } = none
      ∧ ∃ msg, Updater.updateNodesLabel second
          { Name := "node-a", Labels := fun _ => none, Conditions := [] }
          acceptingClient (directoryOf joinListing) (3 * second) "f" defaultLabelKey
        = ([], Result.err msg))
    ∧ Updater.getNodeReadyCondition
        { Name := "node-a", Labels := fun _ => none,
          Conditions := [⟨"MemoryPressure", "False", 0⟩, ⟨"Ready", "True", 0⟩,
            ⟨"Ready", "False", 0⟩] }
      = some ⟨"Ready", "True", 0⟩ :=
  ⟨(C6_missing_ready_condition second
      { Name := "node-a", Labels := fun _ => none, Conditions := [] }
      acceptingClient (directoryOf joinListing) (3 * second) "f" defaultLabelKey).1
      (by decide),
   ((C6_missing_ready_condition second
      { Name := "node-a", Labels := fun _ => none,
        Conditions := [⟨"MemoryPressure", "False", 0⟩, ⟨"Ready", "True", 0⟩,
          ⟨"Ready", "False", 0⟩] }
      acceptingClient (directoryOf joinListing) (3 * second) "f" defaultLabelKey).2
      [⟨"MemoryPressure", "False", 0⟩] ⟨"Ready", "True", 0⟩ [⟨"Ready", "False", 0⟩]
      rfl (by decide) (by decide)).1⟩

/-- C3: the path built by `addNodeLabelWithExternalIP` and by `removeNodeLabel`
is `/metadata/labels/` followed by the key with every `/` replaced by `~1`, so
the part after that lead holds no `/`; for the default key it is
`/metadata/labels/topology.kubernetes.io~1external-ip`, the literal path of
every patch issued by `addLabel` and `delLabel` of `main.go`. -/
theorem C3_patch_path_escaping :
    (∀ (cli : Clientset) (node : Node) (label address : String) (tr : List Event),
      (Updater.addNodeLabelWithExternalIP cli node label address tr).1
        = tr ++ [Event.patchNode node.Name
            [⟨"replace", "/metadata/labels/" ++ String.mk (escapeSlash label.data),
              some address⟩]])
    ∧ (∀ (cli : Clientset) (node : Node) (label : String) (tr : List Event),
      (Updater.removeNodeLabel cli node label tr).1
        = tr ++ [Event.patchNode node.Name
            [⟨"remove", "/metadata/labels/" ++ String.mk (escapeSlash label.data), none⟩]])
    ∧ (∀ label : String, '/' ∉ escapeSlash label.data)
    ∧ "/metadata/labels/" ++ ReplaceAll defaultLabelKey "/" "~1"
        = "/metadata/labels/topology.kubernetes.io~1external-ip"
    ∧ (∀ (cli : Clientset) (sdk : SDK) (folderID nodeName : String) (n : String)
        (b : List patch),
        Event.patchNode n b ∈ (Legacy.addLabel cli sdk folderID nodeName).1 →
        ∀ q ∈ b, q.Path = "/metadata/labels/topology.kubernetes.io~1external-ip")
    ∧ (∀ (cli : Clientset) (nodeName : String) (n : String) (b : List patch),
        Event.patchNode n b ∈ (Legacy.delLabel cli nodeName).1 →
        ∀ q ∈ b, q.Path = "/metadata/labels/topology.kubernetes.io~1external-ip") := by
  refine ⟨addNodeLabelWithExternalIP_trace, removeNodeLabel_trace,
    fun label => escapeSlash_no_slash label.data, by decide, ?_, ?_⟩
  · intro cli sdk folderID nodeName n b hmem
    exact addLabel_events
      (fun e => ∀ n b, e = Event.patchNode n b →
        ∀ q ∈ b, q.Path = "/metadata/labels/topology.kubernetes.io~1external-ip")
      cli sdk folderID nodeName
      (by intro n b h; cases h)
      (by
        intro ip n b h q hq
        cases h
        rw [List.mem_singleton] at hq
        rw [hq])
      _ hmem n b rfl
  · intro cli nodeName n b hmem
    exact delLabel_events
      (fun e => ∀ n b, e = Event.patchNode n b →
        ∀ q ∈ b, q.Path = "/metadata/labels/topology.kubernetes.io~1external-ip")
      cli nodeName
      (by intro n b h; cases h)
      (by
        intro n b h q hq
        cases h
        rw [List.mem_singleton] at hq
        rw [hq])
      _ hmem n b rfl

/-- Witness of C3: on the join example `addLabel` issues a patch, and its path
is the literal one; `removeNodeLabel` with the default key builds the same. -/
theorem C3_patch_path_escaping_witness :
    Event.patchNode "node-a"
        [⟨"replace", "/metadata/labels/topology.kubernetes.io~1external-ip", some "1.2.3.4"⟩]
      ∈ (Legacy.addLabel acceptingClient (directoryOf joinListing) "f" "node-a").1
    ∧ (⟨"replace", "/metadata/labels/topology.kubernetes.io~1external-ip", some "1.2.3.4"⟩ :
        patch).Path = "/metadata/labels/topology.kubernetes.io~1external-ip"
    ∧ (Updater.removeNodeLabel acceptingClient (nodeWith "node-a" (fun _ => none) "False" 0)
        defaultLabelKey []).1
      = [] ++ [Event.patchNode "node-a"
          [⟨"remove", "/metadata/labels/" ++ String.mk (escapeSlash defaultLabelKey.data),
            none⟩]] :=
  ⟨by decide,
   C3_patch_path_escaping.2.2.2.2.1 acceptingClient (directoryOf joinListing) "f" "node-a"
     "node-a"
     [⟨"replace", "/metadata/labels/topology.kubernetes.io~1external-ip", some "1.2.3.4"⟩]
     (by decide) _ (List.mem_singleton.mpr rfl),
   C3_patch_path_escaping.2.1 acceptingClient (nodeWith "node-a" (fun _ => none) "False" 0)
     defaultLabelKey []⟩

/-- C8, as stated, fails: with the configured key `a~1b`, the `replace` patch
issued for a recently ready node has the path `/metadata/labels/a~1b`, which
as a JSON Pointer addresses the label `a/b`, not the configured key; applied
to the node's labels it overwrites the value of the label `a/b`. -/
theorem C8_counterexample :
    (Updater.updateNodesLabel second (nodeWith "node-a" (singleLabel "a/b" "y") "True" 0)
        acceptingClient (directoryOf joinListing) (3 * second) "f" "a~1b").1
      = [Event.listInstances "f" 100,
          Event.patchNode "node-a" [⟨"replace", "/metadata/labels/a~1b", some "1.2.3.4"⟩]]
    ∧ addressedLabel "/metadata/labels/a~1b" = some "a/b"
    ∧ applyTrace (singleLabel "a/b" "y")
        (Updater.updateNodesLabel second (nodeWith "node-a" (singleLabel "a/b" "y") "True" 0)
          acceptingClient (directoryOf joinListing) (3 * second) "f" "a~1b").1 "a/b"
      = some "1.2.3.4"
    ∧ singleLabel "a/b" "y" "a/b" = some "y" := by
  refine ⟨by decide, by decide, by decide, by decide⟩

/-- C8, amended: for every configured label key that holds no `~` (as every
valid Kubernetes label key), every patch payload issued by `updateNodesLabel`
is a list of exactly one operation, with op `replace` or `remove`, whose path
read as a JSON Pointer addresses the label of the configured key; hence
applying the issued patches to the node's label map leaves the value of every
other key unchanged. -/
theorem C8_only_managed_label (now : Int) (node : Node) (cli : Clientset) (sdk : SDK)
    (delay : Int) (folderId label : String) (h : '~' ∉ label.data) :
    (∀ n b, Event.patchNode n b
        ∈ (Updater.updateNodesLabel now node cli sdk delay folderId label).1 →
      ∃ q, b = [q] ∧ (q.Op = "replace" ∨ q.Op = "remove")
        ∧ addressedLabel q.Path = some label)
    ∧ (∀ k, k ≠ label →
      applyTrace node.Labels (Updater.updateNodesLabel now node cli sdk delay folderId label).1 k
        = node.Labels k) := by
  have ha := addressedLabel_labelPath label h
  have hev := updateNodesLabel_events
    (fun e => ∀ n b, e = Event.patchNode n b →
      ∃ q, b = [q] ∧ (q.Op = "replace" ∨ q.Op = "remove")
        ∧ addressedLabel q.Path = some label)
    now node cli sdk delay folderId label
    (by intro n b hx; cases hx)
    (by
      intro ip n b hx
      cases hx
      exact ⟨_, rfl, Or.inl rfl, ha⟩)
    (by
      intro n b hx
      cases hx
      exact ⟨_, rfl, Or.inr rfl, ha⟩)
  constructor
  · intro n b hmem
    exact hev _ hmem n b rfl
  · intro k hk
    apply applyTrace_frame label _ _ node.Labels k hk
    intro e he n b hx
    obtain ⟨q, hq, _, hp⟩ := hev e he n b hx
    exact ⟨q, hq, hp⟩

/-- Witness of C8 on the join example with the default key: the one patch
issued addresses the default key, and another label keeps its value. -/
theorem C8_only_managed_label_witness :
    (∃ q, [(⟨"replace", "/metadata/labels/topology.kubernetes.io~1external-ip",
          some "1.2.3.4"⟩ : patch)] = [q]
        ∧ (q.Op = "replace" ∨ q.Op = "remove")
        ∧ addressedLabel q.Path = some defaultLabelKey)
    ∧ applyTrace (singleLabel "zone" "a")
        (Updater.updateNodesLabel second (nodeWith "node-a" (singleLabel "zone" "a") "True" 0)
          acceptingClient (directoryOf joinListing) (3 * second) "f" defaultLabelKey).1 "zone"
      = singleLabel "zone" "a" "zone" :=
  ⟨(C8_only_managed_label second (nodeWith "node-a" (singleLabel "zone" "a") "True" 0)
      acceptingClient (directoryOf joinListing) (3 * second) "f" defaultLabelKey
      (by decide)).1 "node-a" _ (by decide),
   (C8_only_managed_label second (nodeWith "node-a" (singleLabel "zone" "a") "True" 0)
      acceptingClient (directoryOf joinListing) (3 * second) "f" defaultLabelKey
      (by decide)).2 "zone" (by decide)⟩

/-- C7 fails on the code: one event on a node whose instance has two interfaces
with different public addresses issues two `replace` patches, the second with
the address of the second interface. -/
theorem C7_two_patches_in_one_event :
    Updater.updateNodesLabel second (nodeWith "node-a" (fun _ => none) "True" 0)
        acceptingClient (directoryOf twoAddressListing) (3 * second) "f" defaultLabelKey
      = ([Event.listInstances "f" 100,
          Event.patchNode "node-a"
            [⟨"replace", "/metadata/labels/topology.kubernetes.io~1external-ip",
              some "1.1.1.1"⟩],
          Event.patchNode "node-a"
            [⟨"replace", "/metadata/labels/topology.kubernetes.io~1external-ip",
              some "2.2.2.2"⟩]],
        Result.ok) := by
  decide

/-- C2 fails on the code: after the patches of a first invocation are applied
to the node's labels, a second invocation with the same conditions, clock and
directory issues a patch again. -/
theorem C2_second_invocation_patches_again :
    patchCalls (Updater.updateNodesLabel second
        (nodeWith "node-a"
          (applyTrace (fun _ => none)
            (Updater.updateNodesLabel second (nodeWith "node-a" (fun _ => none) "True" 0)
              acceptingClient (directoryOf twoAddressListing) (3 * second) "f"
              defaultLabelKey).1)
          "True" 0)
        acceptingClient (directoryOf twoAddressListing) (3 * second) "f" defaultLabelKey).1
      = [("node-a",
          [⟨"replace", "/metadata/labels/topology.kubernetes.io~1external-ip",
            some "1.1.1.1"⟩])] := by
  decide

/-! ## Claims on `main.go` -/

/-- C9, as stated, fails: the last condition has type `MemoryPressure`, status
True and transitioned ten seconds ago, yet `processNode` does nothing, whereas
`addLabel` would have queried the directory and patched the node. -/
theorem C9_counterexample :
    Unix (10 * second) - Unix 0 < 300
    ∧ Legacy.processNode (10 * second) acceptingClient (directoryOf joinListing) "f"
        { Name := "node-a", Labels := fun _ => none,
          Conditions := [⟨"MemoryPressure", "True", 0⟩] }
      = ([], Result.ok)
    ∧ Legacy.addLabel acceptingClient (directoryOf joinListing) "f" "node-a"
      = ([Event.listInstances "f" 50,
          Event.patchNode "node-a"
            [⟨"replace", "/metadata/labels/topology.kubernetes.io~1external-ip",
              some "1.2.3.4"⟩]],
        Result.ok) := by
  refine ⟨by decide, by decide, by decide⟩

/-- C9, amended: the action of `processNode` is a function of the last element
of the condition list only, with a fixed threshold of 300 seconds: when the
last condition has type Ready and transitioned less than 300 seconds ago (in
whole Unix seconds), a status of True leads to `addLabel` and any other status
to `delLabel`; otherwise, also when the last condition is of another type,
nothing is done; an empty condition list yields no action. -/
theorem C9_positional_policy (now : Int) (cli : Clientset) (sdk : SDK) (folderID : String)
    (node : Node) :
    (node.Conditions = [] →
      Legacy.processNode now cli sdk folderID node = ([], Result.ok))
    ∧ (∀ pre last, node.Conditions = pre ++ [last] →
      Legacy.processNode now cli sdk folderID node
        = if Unix now - Unix last.LastTransitionTime < 300 ∧ last.Typ = NodeReady then
            (if last.Status = ConditionTrue then Legacy.addLabel cli sdk folderID node.Name
             else Legacy.delLabel cli node.Name)
          else ([], Result.ok)) := by
  cases node with
  | mk name labels conds =>
    constructor
    · intro h
      simp only at h
      subst h
      simp [Legacy.processNode]
    · intro pre last h
      simp only at h
      subst h
      have h300 : Legacy.int64Seconds Legacy.timeout = 300 := by decide
      simp [Legacy.processNode, h300]

/-- Witness of C9: with a `MemoryPressure` condition first and a Ready
condition, True since ten seconds, last, `processNode` does what `addLabel`
does; with no condition it does nothing. -/
theorem C9_positional_policy_witness :
    Legacy.processNode (10 * second) acceptingClient (directoryOf joinListing) "f"
        { Name := "node-a", Labels := fun _ => none,
          Conditions := [⟨"MemoryPressure", "True", 0⟩, ⟨"Ready", "True", 0⟩] }
      = Legacy.addLabel acceptingClient (directoryOf joinListing) "f" "node-a"
    ∧ Legacy.processNode (10 * second) acceptingClient (directoryOf joinListing) "f"
        { Name := "node-a", Labels := fun _ => none, Conditions := [] }
      = ([], Result.ok) :=
  ⟨((C9_positional_policy (10 * second) acceptingClient (directoryOf joinListing) "f"
      { Name := "node-a", Labels := fun _ => none,
        Conditions := [⟨"MemoryPressure", "True", 0⟩, ⟨"Ready", "True", 0⟩] }).2
      [⟨"MemoryPressure", "True", 0⟩] ⟨"Ready", "True", 0⟩ rfl).trans (by decide),
   (C9_positional_policy (10 * second) acceptingClient (directoryOf joinListing) "f"
      { Name := "node-a", Labels := fun _ => none, Conditions := [] }).1 rfl⟩

/-- C10 fails on the code: when the directory holds an instance, of any name,
whose first interface has a primary address without a one-to-one NAT mapping,
`addLabel` ends in a nil-pointer panic right after the directory query, as it
does when the first interface has no primary IPv4 address at all. -/
theorem C10_addLabel_nil_dereference :
    Legacy.addLabel acceptingClient (directoryOf [⟨"other", [privateInterface]⟩]) "f" "node-a"
      = ([Event.listInstances "f" 50], Result.panic Legacy.nilDereference)
    ∧ Legacy.addLabel acceptingClient (directoryOf [⟨"node-a", [⟨none⟩]⟩]) "f" "node-a"
      = ([Event.listInstances "f" 50], Result.panic Legacy.nilDereference) := by
  refine ⟨by decide, by decide⟩
